import Mathlib

/-!
Verification development for the AI .NET upgrader pipeline
(`langgraph_app.py`, `app.py`, `n.py`, `utils/file_utils.py`,
`utils/nuget_helper.py`).

Strings are embedded as `List Char`.  The Python regular expressions used
by the source are embedded by specialised backtracking matchers that follow
PCRE leftmost-match semantics for the concrete patterns appearing in the
code (greedy `\s*`/`\s+`/`[^"]+` quantifiers try longest first, lazy `.*?`
tries shortest first; without `re.S` the dot does not match a newline).
The character class `\s` is embedded as the ASCII whitespace characters.
-/

abbrev Chars := List Char

def whitespaceChar (c : Char) : Bool :=
  c = ' ' || c = '\t' || c = '\n' || c = '\r' || c = '\x0b' || c = '\x0c'

/-- Length of the maximal whitespace run at the head of the string. -/
def wsRunLen : Chars → Nat
  | [] => 0
  | c :: cs => if whitespaceChar c then wsRunLen cs + 1 else 0

/-- Match a literal at the head of the string, returning the remainder. -/
def dropLit : Chars → Chars → Option Chars
  | [], s => some s
  | _ :: _, [] => none
  | c :: cs, d :: ds => if c = d then dropLit cs ds else none

/-- Greedy quantifier with at least zero repetitions: try consuming `i`
characters first, then fewer, down to zero; the continuation receives the
consumed characters and the remainder. -/
def tryGreedyCap0 (s : Chars) : Nat → (Chars → Chars → Option α) → Option α
  | 0, k => k [] s
  | i + 1, k =>
    match k (s.take (i + 1)) (s.drop (i + 1)) with
    | some r => some r
    | none => tryGreedyCap0 s i k

/-- Greedy quantifier with at least one repetition: try consuming `i`
characters first, then fewer, down to one. -/
def tryGreedyCap (s : Chars) : Nat → (Chars → Chars → Option α) → Option α
  | 0, _ => none
  | i + 1, k =>
    match k (s.take (i + 1)) (s.drop (i + 1)) with
    | some r => some r
    | none => tryGreedyCap s i k

/-- Lazy dot-all group `(.*?)`: try the empty group first, then extend one
character at a time.  `acc` holds the reversed characters consumed so far. -/
def tryLazyCap (k : Chars → Chars → Option α) : Chars → Chars → Option α
  | acc, s =>
    match k acc.reverse s with
    | some r => some r
    | none =>
      match s with
      | [] => none
      | c :: cs => tryLazyCap k (c :: acc) cs

/-- Lazy group `(.*?)` without `re.S`: as `tryLazyCap`, but the group may
not consume a newline. -/
def tryLazyNoNlCap (k : Chars → Chars → Option α) : Chars → Chars → Option α
  | acc, s =>
    match k acc.reverse s with
    | some r => some r
    | none =>
      match s with
      | [] => none
      | c :: cs => if c = '\n' then none else tryLazyNoNlCap k (c :: acc) cs

/-- Scan for successive non-overlapping leftmost matches, continuing after
the end of each match (the semantics of `re.finditer` / `re.findall`).
`fuel` bounds the recursion; `input.length + 1` is always enough because
every pattern in the source consumes at least one character. -/
def scanAll (matchAt : Chars → Option (α × Chars)) : Nat → Chars → List α
  | 0, _ => []
  | fuel + 1, s =>
    Option.elim (matchAt s)
      (match s with
       | [] => []
       | _ :: cs => scanAll matchAt fuel cs)
      (fun p => p.1 :: scanAll matchAt fuel p.2)

/-- Python `str.strip()`: remove whitespace from both ends. -/
def stripChars (s : Chars) : Chars :=
  ((s.dropWhile whitespaceChar).reverse.dropWhile whitespaceChar).reverse

/-- Python dict assignment `d[k] = v`: overwrite in place, or append. -/
def dictInsert : List (Chars × α) → Chars → α → List (Chars × α)
  | [], k, v => [(k, v)]
  | (k', v') :: d, k, v =>
    if k' = k then (k', v) :: d else (k', v') :: dictInsert d k v

/-- Python dict lookup `d.get(k)`. -/
def dictLookup : List (Chars × α) → Chars → Option α
  | [], _ => none
  | (k', v) :: d, k => if k' = k then some v else dictLookup d k

/-- Python `list(set(xs))`, embedded as first-occurrence deduplication
(the source relies on no particular set ordering). -/
def dedupKeepFirst (xs : List Chars) : List Chars :=
  xs.dedup

/-!
Embeddings of the individual regular expressions of the source.
-/

/-- Match of `<PackageReference\s+Include="([^"]+)"\s+Version="([^"]+)"`
(from `scan_packages_node`) at the head of the string; returns the two
captured groups and the remainder after the match. -/
def matchPkgRefAt (s : Chars) : Option ((Chars × Chars) × Chars) :=
  match dropLit "<PackageReference".toList s with
  | none => none
  | some s1 =>
    tryGreedyCap s1 (wsRunLen s1) (fun _ s2 =>
      match dropLit "Include=\"".toList s2 with
      | none => none
      | some s3 =>
        tryGreedyCap s3 (s3.takeWhile (fun c => c ≠ '"')).length (fun name s4 =>
          match dropLit "\"".toList s4 with
          | none => none
          | some s5 =>
            tryGreedyCap s5 (wsRunLen s5) (fun _ s6 =>
              match dropLit "Version=\"".toList s6 with
              | none => none
              | some s7 =>
                tryGreedyCap s7 (s7.takeWhile (fun c => c ≠ '"')).length
                  (fun ver s8 =>
                    match dropLit "\"".toList s8 with
                    | none => none
                    | some s9 => some ((name, ver), s9)))))

/-- `re.findall` of the package-reference pattern over a file's text. -/
def findPackageReferences (text : Chars) : List (Chars × Chars) :=
  scanAll matchPkgRefAt (text.length + 1) text

/-- Match of `--FILE:\s*(.*?)\s*--\n(.*?)--END FILE--` with `re.S`
(from `upgrade_ai_node` and `extract_diffs_from_markdown`) at the head of
the string; returns the raw captured groups and the remainder. -/
def matchFileBlockAt (s : Chars) : Option ((Chars × Chars) × Chars) :=
  match dropLit "--FILE:".toList s with
  | none => none
  | some s1 =>
    tryGreedyCap0 s1 (wsRunLen s1) (fun _ s2 =>
      tryLazyCap (fun g1 s3 =>
        tryGreedyCap0 s3 (wsRunLen s3) (fun _ s4 =>
          match dropLit "--\n".toList s4 with
          | none => none
          | some s5 =>
            tryLazyCap (fun g2 s6 =>
              match dropLit "--END FILE--".toList s6 with
              | none => none
              | some s7 => some ((g1, g2), s7)) [] s5)) [] s2)

/-- `re.finditer` of the file-block pattern, returning raw group pairs. -/
def extractFileBlocks (t : Chars) : List (Chars × Chars) :=
  scanAll matchFileBlockAt (t.length + 1) t

/-- Match of `<open>(.*?)<close>` with `re.S` at the head of the string
(the `<before>`/`<after>` patterns of `n.py`). -/
def matchTagAt (op cl : Chars) (s : Chars) : Option (Chars × Chars) :=
  match dropLit op s with
  | none => none
  | some s1 =>
    tryLazyCap (fun g s2 =>
      match dropLit cl s2 with
      | none => none
      | some r => some (g, r)) [] s1

/-- `re.search` for a tagged section: the first match's captured group. -/
def searchTag (op cl : Chars) (t : Chars) : Option Chars :=
  (scanAll (matchTagAt op cl) (t.length + 1) t).head?

/-- Match of `<add key=".*?" value="(.*?)"` without `re.S`
(from `detect_private_feeds`) at the head of the string. -/
def matchAddAt (s : Chars) : Option (Chars × Chars) :=
  match dropLit "<add key=\"".toList s with
  | none => none
  | some s1 =>
    tryLazyNoNlCap (fun _ s2 =>
      match dropLit "\" value=\"".toList s2 with
      | none => none
      | some s3 =>
        tryLazyNoNlCap (fun g s4 =>
          match dropLit "\"".toList s4 with
          | none => none
          | some s5 => some (g, s5)) [] s3) [] s1

/-- `re.findall` of the feed-endpoint pattern over a config file's text. -/
def findAddValues (text : Chars) : List Chars :=
  scanAll matchAddAt (text.length + 1) text

/-- Match of `<TargetFramework>.*?</TargetFramework>` without `re.S`
(from `create_upgraded_zip`) at the head; returns the remainder. -/
def matchTFAt (s : Chars) : Option Chars :=
  match dropLit "<TargetFramework>".toList s with
  | none => none
  | some s1 => tryLazyNoNlCap (fun _ s2 => dropLit "</TargetFramework>".toList s2) [] s1

/-- Worker for `re.sub` on the target-framework pattern: replace every
non-overlapping leftmost match, continuing after each replacement. -/
def substTFAux (target : Chars) : Nat → Chars → Chars
  | 0, s => s
  | fuel + 1, s =>
    match matchTFAt s with
    | some rest =>
      "<TargetFramework>".toList ++ target ++ "</TargetFramework>".toList ++
        substTFAux target fuel rest
    | none =>
      match s with
      | [] => []
      | c :: cs => c :: substTFAux target fuel cs

/-- `re.sub(r'<TargetFramework>.*?</TargetFramework>', ..., orig)`. -/
def substTF (target content : Chars) : Chars :=
  substTFAux target (content.length + 1) content

/-!
`utils/file_utils.py`.  A project tree (and likewise the produced archive)
is embedded as the walk-ordered list of (relative path, content) pairs.
-/

/-- Embedding of `create_upgraded_zip(root, updates, target)`: the list of
entries written to the archive, in walk order. -/
def create_upgraded_zip (tree : List (Chars × Chars))
    (updates : List (Chars × Chars)) (target : Chars) :
    List (Chars × Chars) :=
  tree.map (fun f =>
    match dictLookup updates f.1 with
    | some u => (f.1, u)
    | none =>
      if (".csproj".toList).isSuffixOf f.1 then (f.1, substTF target f.2)
      else (f.1, f.2))

namespace FileUtils

/-- Embedding of `utils/file_utils.py`'s `extract_diffs_from_markdown`,
which is the one-line stub `return []`. -/
def extract_diffs_from_markdown (_t : Chars) : List (Chars × Chars × Chars) :=
  []

end FileUtils

namespace NApp

/-- Embedding of `n.py`'s `extract_diffs_from_markdown`: find the file
blocks, and within each (stripped) block body search for `<before>` and
`<after>` sections; a block missing either contributes nothing. -/
def extract_diffs_from_markdown (t : Chars) : List (Chars × Chars × Chars) :=
  (extractFileBlocks t).filterMap (fun g =>
    let fname := stripChars g.1
    let xml := stripChars g.2
    match searchTag "<before>".toList "</before>".toList xml,
          searchTag "<after>".toList "</after>".toList xml with
    | some b, some a => some (fname, stripChars b, stripChars a)
    | _, _ => none)

end NApp

/-!
`utils/nuget_helper.py`.  A network response is either a raised exception
or a status code paired with the decoded `versions` list.
-/

inductive HttpOutcome where
  | exn : HttpOutcome
  | resp : Nat → List Chars → HttpOutcome
deriving DecidableEq

/-- The version selection of `get_latest_nuget_version_for_feed`:
`stable[-1] if stable else (versions[-1] if versions else None)`, where
stable versions are those not containing the pre-release separator. -/
def latestFromVersions (versions : List Chars) : Option Chars :=
  let stable := versions.filter (fun v => !(v.contains '-'))
  match stable.getLast? with
  | some s => some s
  | none => versions.getLast?

/-- Core of `get_latest_nuget_version_for_feed`, parameterised by the two
network outcomes.  The second component records whether control reached
the public-registry request (it is skipped exactly when a truthy feed URL
is given and the private feed answers with status 200, since that branch
returns from inside the `try`).  Failures are swallowed by the source's
`except: pass`, so the embedding is total and never raises. -/
def getLatestCore (feedUrl : Option Chars) (privR pubR : HttpOutcome) :
    Option Chars × Bool :=
  let fromPub : Option Chars :=
    match pubR with
    | .resp st versions => if st = 200 then latestFromVersions versions else none
    | .exn => none
  match feedUrl with
  | some u =>
    if u = [] then (fromPub, true)
    else
      match privR with
      | .resp st versions =>
        if st = 200 then (latestFromVersions versions, false) else (fromPub, true)
      | .exn => (fromPub, true)
  | none => (fromPub, true)

/-- Embedding of `get_latest_nuget_version_for_feed` (the value returned;
the package name and token only shape the request, which is abstracted by
the supplied outcomes). -/
def get_latest_nuget_version_for_feed (feedUrl : Option Chars)
    (privR pubR : HttpOutcome) : Option Chars :=
  (getLatestCore feedUrl privR pubR).1

/-- Whether the public-registry lookup is performed at all. -/
def publicRegistryQueried (feedUrl : Option Chars)
    (privR pubR : HttpOutcome) : Bool :=
  (getLatestCore feedUrl privR pubR).2

/-!
`langgraph_app.py`.  The `UpgradeState` dict becomes a record of optional
fields (a missing key is `none`); file paths are the walk-ordered relative
paths of the extracted tree, so `os.path.relpath(p, root)` is the identity
on them.  Exceptions are embedded with `Except`: a step that can raise
returns `Except PyErr UpgradeState`.  The two completion-service calls are
black boxes (per the specification); the environment supplies them as
oracles over the exact data each prompt embeds.
-/

/-- One entry of `package_report`: `{"current": ..., "latest": ...}`. -/
structure PkgEntry where
  current : Chars
  latest : Option Chars
deriving DecidableEq, Inhabited

abbrev PkgDict := List (Chars × PkgEntry)

/-- Embedding of the `UpgradeState` TypedDict (`total=False`). -/
structure UpgradeState where
  uploaded_file_path : Option Chars := none
  user_feed_url : Option Chars := none
  private_feeds : Option (List Chars) := none
  feed_tokens : Option (List (Chars × Chars)) := none
  csproj_paths : Option (List Chars) := none
  package_report : Option PkgDict := none
  analysis_report : Option Chars := none
  upgrade_preview : Option Chars := none
  csproj_updates : Option (List (Chars × Chars)) := none
  target_version : Option Chars := none
deriving DecidableEq

/-- Exceptions that can escape a pipeline step. -/
inductive PyErr where
  | keyError : PyErr
  | aiError : PyErr
  | engineError : PyErr
deriving DecidableEq

deriving instance DecidableEq for Except

/-- Data embedded in the analysis prompt (target version, feed list,
package report, and each descriptor's relative path and contents). -/
structure AnalyzeInput where
  target : Option Chars
  feeds : List Chars
  report : PkgDict
  files : List (Chars × Chars)
deriving DecidableEq

/-- Data embedded in the rewrite prompt. -/
structure RewriteInput where
  target : Option Chars
  files : List (Chars × Chars)
deriving DecidableEq

/-- The environment of one pipeline run: the extracted project tree (in
walk order, relative paths), the token issuer (`jwt.encode` with its
per-call salt and clock), the two NuGet endpoints, and the two
completion-service oracles. -/
structure Env where
  tree : List (Chars × Chars)
  jwtFor : Chars → Chars
  privFeedResp : Chars → Chars → Option Chars → HttpOutcome
  pubResp : Chars → HttpOutcome
  analyzeAI : AnalyzeInput → Except PyErr Chars
  rewriteAI : RewriteInput → Except PyErr Chars

/-- Embedding of `read_text`: within the pipeline every path passed here
was produced by `collect_csproj_files`, so the lookup always succeeds. -/
def read_text (env : Env) (p : Chars) : Chars :=
  (dictLookup env.tree p).getD []

/-- Embedding of `collect_csproj_files(root)`: the walk-ordered paths of
files whose name ends in `.csproj`. -/
def collect_csproj_files (env : Env) : List Chars :=
  (env.tree.map Prod.fst).filter (fun p => (".csproj".toList).isSuffixOf p)

/-- The component of a path after its last separator (the file name the
walk reports). -/
def lastComponent (p : Chars) : Chars :=
  p.foldl (fun acc c => if c = '/' then [] else acc ++ [c]) []

/-- Embedding of `detect_private_feeds(project_root)`: every
`<add ... value="...">` endpoint of every `nuget.config` file, with
`list(set(...))` deduplication. -/
def detect_private_feeds (env : Env) : List Chars :=
  dedupKeepFirst
    ((env.tree.filter
        (fun f => (lastComponent f.1).map Char.toLower = "nuget.config".toList)).foldl
      (fun acc f => acc ++ findAddValues f.2) [])

/-- Node `upload`: reads `state["uploaded_file_path"]` (a `KeyError` if
absent) and records the collected descriptor paths. -/
def upload_node (env : Env) (s : UpgradeState) : Except PyErr UpgradeState :=
  match s.uploaded_file_path with
  | none => .error .keyError
  | some _root => .ok { s with csproj_paths := some (collect_csproj_files env) }

/-- Node `detect_feeds`: the user-supplied feed, if truthy, wins outright;
otherwise the tree is scanned for configured feeds. -/
def detect_feeds_node (env : Env) (s : UpgradeState) : Except PyErr UpgradeState :=
  match s.uploaded_file_path with
  | none => .error .keyError
  | some _root =>
    let feeds :=
      match s.user_feed_url with
      | some u => if u = [] then detect_private_feeds env else [u]
      | none => detect_private_feeds env
    .ok { s with private_feeds := some feeds }

/-- Node `gen_jwt`: one issued token per feed, stored as a dict. -/
def generate_jwt_node (env : Env) (s : UpgradeState) : Except PyErr UpgradeState :=
  let tokens := (s.private_feeds.getD []).foldl
    (fun d feed => dictInsert d feed (env.jwtFor feed)) []
  .ok { s with feed_tokens := some tokens }

/-- The version lookup performed inside the scan loop: the first feed of
`private_feeds` (or none), its token, and the two-tier resolution. -/
def lookupLatestInScan (env : Env) (s : UpgradeState) (name : Chars) : Option Chars :=
  let feedOpt := (s.private_feeds.getD []).head?
  let token := feedOpt.bind (fun f => dictLookup (s.feed_tokens.getD []) f)
  get_latest_nuget_version_for_feed feedOpt
    (env.privFeedResp name (feedOpt.getD []) token) (env.pubResp name)

/-- `pkgs.setdefault(name, {"current": ver})` followed by
`pkgs[name]["latest"] = latest`. -/
def pkgsAdd : PkgDict → Chars → Chars → Option Chars → PkgDict
  | [], name, ver, latest => [(name, ⟨ver, latest⟩)]
  | (n, e) :: d, name, ver, latest =>
    if n = name then (n, ⟨e.current, latest⟩) :: d
    else (n, e) :: pkgsAdd d name ver latest

/-- Node `scan_pkgs`: walk the descriptors, extract package references,
and resolve each one's latest version. -/
def scan_packages_node (env : Env) (s : UpgradeState) : Except PyErr UpgradeState :=
  match s.uploaded_file_path with
  | none => .error .keyError
  | some _root =>
    let c0 := s.csproj_paths.getD []
    let csprojs := if c0 = [] then collect_csproj_files env else c0
    let pkgs := csprojs.foldl
      (fun d p =>
        (findPackageReferences (read_text env p)).foldl
          (fun d2 nv => pkgsAdd d2 nv.1 nv.2 (lookupLatestInScan env s nv.1)) d)
      []
    .ok { s with package_report := some pkgs }

/-- The descriptor texts the prompts embed, labelled by relative path. -/
def promptFiles (env : Env) (s : UpgradeState) : List (Chars × Chars) :=
  (s.csproj_paths.getD []).map (fun p => (p, read_text env p))

/-- Node `analyze_ai`: submit the analysis prompt; the raw response (or
the raised exception) is the outcome. -/
def analyze_ai_node (env : Env) (s : UpgradeState) : Except PyErr UpgradeState :=
  match s.uploaded_file_path with
  | none => .error .keyError
  | some _root =>
    match env.analyzeAI ⟨s.target_version, s.private_feeds.getD [],
        s.package_report.getD [], promptFiles env s⟩ with
    | .error e => .error e
    | .ok r => .ok { s with analysis_report := some r }

/-- Parsing of the rewrite preview into `csproj_updates`: each recognized
block's stripped label maps to its stripped body (a dict, so a repeated
label keeps the last body). -/
def parsePreviewUpdates (preview : Chars) : List (Chars × Chars) :=
  (extractFileBlocks preview).foldl
    (fun d g => dictInsert d (stripChars g.1) (stripChars g.2)) []

/-- Node `upgrade_ai`: submit the rewrite prompt, store the raw preview,
and parse it into the per-file update mapping. -/
def upgrade_ai_node (env : Env) (s : UpgradeState) : Except PyErr UpgradeState :=
  match s.uploaded_file_path with
  | none => .error .keyError
  | some _root =>
    match env.rewriteAI ⟨s.target_version, promptFiles env s⟩ with
    | .error e => .error e
    | .ok preview =>
      .ok { s with upgrade_preview := some preview,
                   csproj_updates := some (parsePreviewUpdates preview) }

/-- Node `final`: pass through. -/
def final_node (_env : Env) (s : UpgradeState) : Except PyErr UpgradeState :=
  .ok s

/-- The sequential fallback of `run_graph_invoke`: the seven node
functions applied in order, any exception propagating. -/
def runSequential (env : Env) (s0 : UpgradeState) : Except PyErr UpgradeState :=
  upload_node env s0 >>= detect_feeds_node env >>= generate_jwt_node env >>=
    scan_packages_node env >>= analyze_ai_node env >>= upgrade_ai_node env >>=
    final_node env

/-- The registered graph: named nodes, directed edges, entry point. -/
structure GraphDef where
  nodes : List (String × (Env → UpgradeState → Except PyErr UpgradeState))
  edges : List (String × String)
  entry : String

/-- Lookup of a node function by name. -/
def lookupNode (g : GraphDef) (name : String) :
    Option (Env → UpgradeState → Except PyErr UpgradeState) :=
  (g.nodes.find? (fun p => p.1 = name)).map Prod.snd

/-- The unique outgoing edge of a node, if any. -/
def edgeFrom (g : GraphDef) (name : String) : Option String :=
  (g.edges.find? (fun p => p.1 = name)).map Prod.snd

/-- Modelled from the spec: the generic directed-graph executor
(`langgraph`'s `invoke`, which is not part of this repository) runs the
registered nodes in topological order starting at the entry point,
following each node's outgoing edge until a node has none, threading the
state and propagating any exception a node raises. -/
def execFrom (g : GraphDef) (env : Env) : Nat → String → UpgradeState →
    Except PyErr UpgradeState
  | 0, _, s => .ok s
  | fuel + 1, name, s =>
    match lookupNode g name with
    | none => .ok s
    | some f =>
      f env s >>= fun s2 =>
        match edgeFrom g name with
        | some nxt => execFrom g env fuel nxt s2
        | none => .ok s2

/-- Modelled from the spec: `graph_obj.invoke(initial_state)`. -/
def graphInvoke (g : GraphDef) (env : Env) (s0 : UpgradeState) :
    Except PyErr UpgradeState :=
  execFrom g env g.nodes.length g.entry s0

/-- The graph registered by `langgraph_app.py`: seven nodes, a linear
chain of edges, entry point `upload`. -/
def upgradeGraph : GraphDef where
  nodes :=
    [("upload", upload_node), ("detect_feeds", detect_feeds_node),
     ("gen_jwt", generate_jwt_node), ("scan_pkgs", scan_packages_node),
     ("analyze_ai", analyze_ai_node), ("upgrade_ai", upgrade_ai_node),
     ("final", final_node)]
  edges :=
    [("upload", "detect_feeds"), ("detect_feeds", "gen_jwt"),
     ("gen_jwt", "scan_pkgs"), ("scan_pkgs", "analyze_ai"),
     ("analyze_ai", "upgrade_ai"), ("upgrade_ai", "final")]
  entry := "upload"

/-- Embedding of `run_graph_invoke`: try the graph executor (whose
invocation itself may fail when the engine is unavailable, `engineOk`);
any exception out of it is caught and the fallback runs the seven steps
sequentially, whose own exceptions propagate. -/
def run_graph_invoke (engineOk : Bool) (g : GraphDef) (env : Env)
    (initial : UpgradeState) : Except PyErr UpgradeState :=
  match (if engineOk then graphInvoke g env initial
         else Except.error PyErr.engineError) with
  | .ok r => .ok r
  | .error _ => runSequential env initial

/-!
Concrete environments and initial states used to instantiate the theorems.
-/

/-- An initial state carrying the two required keys. -/
def sInit : UpgradeState where
  uploaded_file_path := some "root".toList
  target_version := some "net8.0".toList

/-- A small healthy environment: one descriptor with one package
reference, a failing private feed, a public registry answering versions
`12.0.0` and `13.0.1`, and well-behaved completion oracles. -/
def envT : Env where
  tree := [("A.csproj".toList,
    "<Project>\n<TargetFramework>net6.0</TargetFramework>\n<PackageReference Include=\"N.J\" Version=\"12.0.0\" />\n</Project>".toList)]
  jwtFor := fun _ => "tok".toList
  privFeedResp := fun _ _ _ => .exn
  pubResp := fun _ => .resp 200 ["12.0.0".toList, "13.0.1".toList]
  analyzeAI := fun _ => .ok "report".toList
  rewriteAI := fun _ => .ok "--FILE: A.csproj --\n<xml/>\n--END FILE--".toList

/-- The environment `envT` with an analysis oracle that raises. -/
def envFail : Env :=
  { envT with analyzeAI := fun _ => .error .aiError }

/-!
Theorems.
-/

/-- The graph executor, applied to the graph registered by the source,
computes exactly the sequential composition of the seven nodes. -/
theorem graphInvoke_eq_runSequential (env : Env) (s0 : UpgradeState) :
    graphInvoke upgradeGraph env s0 = runSequential env s0 := by
  show execFrom upgradeGraph env 7 "upload" s0 = _
  simp [execFrom, lookupNode, edgeFrom, upgradeGraph, runSequential]
  rfl

/-- Claim C1: for every initial state containing `project_root`
(`uploaded_file_path`) and `target_version`, delegating to the
directed-graph executor and running the seven node functions sequentially
in order produce the same final state. -/
theorem c1_strategies_equivalent (env : Env) (s0 : UpgradeState)
    (h1 : s0.uploaded_file_path.isSome) (h2 : s0.target_version.isSome) :
    graphInvoke upgradeGraph env s0 = runSequential env s0 :=
  graphInvoke_eq_runSequential env s0

/-- Witness for C1 at a concrete environment and initial state. -/
theorem c1_strategies_equivalent_witness :
    graphInvoke upgradeGraph envT sInit = runSequential envT sInit :=
  c1_strategies_equivalent envT sInit (by decide) (by decide)

/-- Claim C2: if a step raises during the run, `run_graph_invoke` hands
that exception to the caller and returns no state as a completed result
(in this deterministic embedding the sequential fallback reproduces the
step's exception, so the failure always escapes). -/
theorem c2_step_exception_propagates (engineOk : Bool) (env : Env)
    (s0 : UpgradeState) (e : PyErr)
    (h : runSequential env s0 = .error e) :
    run_graph_invoke engineOk upgradeGraph env s0 = Except.error e := by
  cases engineOk with
  | false => simp [run_graph_invoke, h]
  | true => simp [run_graph_invoke, graphInvoke_eq_runSequential, h]

/-- Witness for C2: with a raising analysis oracle the pipeline's error
reaches the caller of `run_graph_invoke`. -/
theorem c2_step_exception_propagates_witness :
    run_graph_invoke true upgradeGraph envFail sInit = Except.error PyErr.aiError :=
  c2_step_exception_propagates true envFail sInit PyErr.aiError rfl

/-- Claim C8: whenever `user_feed_url` is non-empty, feed detection sets
`private_feeds` to exactly `[user_feed_url]`, whatever feed-configuration
files the tree contains. -/
theorem c8_user_feed_overrides (env : Env) (s : UpgradeState) (root u : Chars)
    (h1 : s.uploaded_file_path = some root) (h2 : s.user_feed_url = some u)
    (h3 : u ≠ []) :
    detect_feeds_node env s = .ok { s with private_feeds := some [u] } := by
  rw [detect_feeds_node, h1, h2]
  simp [h3]

/-- Witness for C8: a tree that does contain a `nuget.config` with a
different feed, overridden by the user-supplied URL. -/
theorem c8_user_feed_overrides_witness :
    detect_feeds_node
      { envT with tree :=
          [("nuget.config".toList,
            "<add key=\"x\" value=\"https://other/feed\" />".toList)] }
      { sInit with user_feed_url := some "https://user/feed".toList }
      = .ok { sInit with user_feed_url := some "https://user/feed".toList,
                         private_feeds := some ["https://user/feed".toList] } :=
  c8_user_feed_overrides _ _ "root".toList "https://user/feed".toList
    rfl rfl (by decide)

/-- A lookup fails when the request raised or the response status was not
200 (the only cases in which the source falls through). -/
def httpFailed : HttpOutcome → Bool
  | .exn => true
  | .resp st _ => !(st = 200 : Bool)

/-- Claim C5: a successful lookup returns the last version without the
pre-release separator when one exists and the last version otherwise;
failures fall through without raising, and when both the private-feed and
public-registry lookups fail the result is `none`, never an error; in
particular versions ["1.0.0","1.1.0-beta","1.2.0"] resolve to "1.2.0" and
["2.0.0-rc1"] alone resolves to "2.0.0-rc1". -/
theorem c5_resolver_stable_preference (u : Chars) (hu : u ≠ [])
    (versions : List Chars) (pubR privF pubF : HttpOutcome)
    (hpriv : httpFailed privF = true) (hpub : httpFailed pubF = true) :
    (get_latest_nuget_version_for_feed (some u) (.resp 200 versions) pubR
      = match (versions.filter (fun v => !(v.contains '-'))).getLast? with
        | some s => some s
        | none => versions.getLast?)
    ∧ (get_latest_nuget_version_for_feed (some u) privF (.resp 200 versions)
      = match (versions.filter (fun v => !(v.contains '-'))).getLast? with
        | some s => some s
        | none => versions.getLast?)
    ∧ get_latest_nuget_version_for_feed (some u) privF pubF = none
    ∧ get_latest_nuget_version_for_feed (some u)
        (.resp 200 ["1.0.0".toList, "1.1.0-beta".toList, "1.2.0".toList]) pubR
        = some "1.2.0".toList
    ∧ get_latest_nuget_version_for_feed (some u)
        (.resp 200 ["2.0.0-rc1".toList]) pubR = some "2.0.0-rc1".toList := by
  refine ⟨?_, ?_, ?_, ?_, ?_⟩
  · simp [get_latest_nuget_version_for_feed, getLatestCore, hu, latestFromVersions]
  · cases privF with
    | exn => simp [get_latest_nuget_version_for_feed, getLatestCore, hu,
        latestFromVersions]
    | resp st vs =>
      have hst : ¬ st = 200 := by simpa [httpFailed] using hpriv
      simp [get_latest_nuget_version_for_feed, getLatestCore, hu, hst,
        latestFromVersions]
  · cases privF with
    | exn =>
      cases pubF with
      | exn => simp [get_latest_nuget_version_for_feed, getLatestCore, hu]
      | resp st vs =>
        have hst : ¬ st = 200 := by simpa [httpFailed] using hpub
        simp [get_latest_nuget_version_for_feed, getLatestCore, hu, hst]
    | resp st vs =>
      have hst : ¬ st = 200 := by simpa [httpFailed] using hpriv
      cases pubF with
      | exn => simp [get_latest_nuget_version_for_feed, getLatestCore, hu, hst]
      | resp st2 vs2 =>
        have hst2 : ¬ st2 = 200 := by simpa [httpFailed] using hpub
        simp [get_latest_nuget_version_for_feed, getLatestCore, hu, hst, hst2]
  · simp [get_latest_nuget_version_for_feed, getLatestCore, hu]
    decide
  · simp [get_latest_nuget_version_for_feed, getLatestCore, hu]
    decide

/-- Witness for C5 at a concrete feed URL and concrete outcomes. -/
theorem c5_resolver_stable_preference_witness :
    (get_latest_nuget_version_for_feed (some "https://f".toList)
        (.resp 200 ["1.0.0".toList]) .exn
      = match (["1.0.0".toList].filter (fun v => !(v.contains '-'))).getLast? with
        | some s => some s
        | none => ["1.0.0".toList].getLast?)
    ∧ (get_latest_nuget_version_for_feed (some "https://f".toList) .exn
        (.resp 200 ["1.0.0".toList])
      = match (["1.0.0".toList].filter (fun v => !(v.contains '-'))).getLast? with
        | some s => some s
        | none => ["1.0.0".toList].getLast?)
    ∧ get_latest_nuget_version_for_feed (some "https://f".toList) .exn
        (.resp 503 []) = none
    ∧ get_latest_nuget_version_for_feed (some "https://f".toList)
        (.resp 200 ["1.0.0".toList, "1.1.0-beta".toList, "1.2.0".toList]) .exn
        = some "1.2.0".toList
    ∧ get_latest_nuget_version_for_feed (some "https://f".toList)
        (.resp 200 ["2.0.0-rc1".toList]) .exn = some "2.0.0-rc1".toList :=
  c5_resolver_stable_preference "https://f".toList (by decide) ["1.0.0".toList]
    .exn .exn (.resp 503 []) (by decide) (by decide)

/-- Claim C9: a private feed answering 200 with an empty versions list
makes the resolver return `none` from the private branch, and the public
registry is not queried for that package. -/
theorem c9_private_empty_skips_public (u : Chars) (hu : u ≠ [])
    (pubR : HttpOutcome) :
    get_latest_nuget_version_for_feed (some u) (.resp 200 []) pubR = none
    ∧ publicRegistryQueried (some u) (.resp 200 []) pubR = false := by
  constructor
  · simp [get_latest_nuget_version_for_feed, getLatestCore, hu, latestFromVersions]
  · simp [publicRegistryQueried, getLatestCore, hu]

/-- Witness for C9 with a public registry that would have answered. -/
theorem c9_private_empty_skips_public_witness :
    get_latest_nuget_version_for_feed (some "https://f".toList) (.resp 200 [])
        (.resp 200 ["9.9.9".toList]) = none
    ∧ publicRegistryQueried (some "https://f".toList) (.resp 200 [])
        (.resp 200 ["9.9.9".toList]) = false :=
  c9_private_empty_skips_public "https://f".toList (by decide)
    (.resp 200 ["9.9.9".toList])

/-- A markdown text with one block carrying both tagged sections. -/
def diffSampleFull : Chars :=
  "--FILE: A.csproj --\n<before>OLD</before>\n<after>NEW</after>\n--END FILE--".toList

/-- A markdown text with one block missing the `<after>` section. -/
def diffSamplePartial : Chars :=
  "--FILE: A.csproj --\n<before>OLD</before>\n--END FILE--".toList

/-- Claim C4: on a well-formed block with both tagged sections the
`n.py` implementation of `extract_diffs_from_markdown` returns the tuple
the claim describes and drops a block missing a tag, but the
`utils/file_utils.py` implementation of the same function — the one
`app.py` imports — is a stub returning the empty list on every input,
contradicting the specified (and `n.py`-implemented) behaviour. -/
theorem c4_diff_extractor_divergence :
    NApp.extract_diffs_from_markdown diffSampleFull
      = [("A.csproj".toList, "OLD".toList, "NEW".toList)]
    ∧ NApp.extract_diffs_from_markdown diffSamplePartial = []
    ∧ FileUtils.extract_diffs_from_markdown diffSampleFull = [] := by
  refine ⟨by decide, by decide, rfl⟩

/-- Claim C7: the repackager emits, for each file of the tree, the
replacement content when the path is a key of `file_updates`, the original
content with every declared target framework replaced by the target when
the file is a `.csproj`, and the unchanged content otherwise. -/
theorem c7_repackager_per_file (tree updates : List (Chars × Chars))
    (target rel content : Chars) (h : (rel, content) ∈ tree) :
    (match dictLookup updates rel with
     | some u => (rel, u)
     | none =>
       if (".csproj".toList).isSuffixOf rel then (rel, substTF target content)
       else (rel, content)) ∈ create_upgraded_zip tree updates target := by
  unfold create_upgraded_zip
  exact List.mem_map_of_mem _ h

/-- Witness for C7: one descriptor declaring `net6.0`, no updates; the
archived copy declares `net8.0` and is otherwise unchanged. -/
theorem c7_repackager_per_file_witness :
    ("A.csproj".toList,
      "<Project>\n  <TargetFramework>net8.0</TargetFramework>\n</Project>".toList)
      ∈ create_upgraded_zip
        [("A.csproj".toList,
          "<Project>\n  <TargetFramework>net6.0</TargetFramework>\n</Project>".toList)]
        [] "net8.0".toList := by
  have h := c7_repackager_per_file
    [("A.csproj".toList,
      "<Project>\n  <TargetFramework>net6.0</TargetFramework>\n</Project>".toList)]
    [] "net8.0".toList "A.csproj".toList
    "<Project>\n  <TargetFramework>net6.0</TargetFramework>\n</Project>".toList
    (List.mem_singleton_self _)
  have hval :
      (match dictLookup ([] : List (Chars × Chars)) "A.csproj".toList with
       | some u => ("A.csproj".toList, u)
       | none =>
         if (".csproj".toList).isSuffixOf "A.csproj".toList then
           ("A.csproj".toList,
            substTF "net8.0".toList
              "<Project>\n  <TargetFramework>net6.0</TargetFramework>\n</Project>".toList)
         else
           ("A.csproj".toList,
            "<Project>\n  <TargetFramework>net6.0</TargetFramework>\n</Project>".toList))
      = ("A.csproj".toList,
         "<Project>\n  <TargetFramework>net8.0</TargetFramework>\n</Project>".toList) := by
    decide
  rw [hval] at h
  exact h

/-- A successful `dropLit` means the literal is a prefix with the given
remainder. -/
theorem dropLit_sound : ∀ (l s r : Chars), dropLit l s = some r → l ++ r = s
  | [], _, _, h => by simpa [dropLit] using h.symm
  | _ :: _, [], _, h => by simp [dropLit] at h
  | c :: cs, d :: ds, r, h => by
    rw [dropLit] at h
    split at h
    · next hc => simpa [hc] using dropLit_sound cs ds r h
    · exact absurd h (by simp)

/-- A pattern occurring at the head of the text occurs in the text. -/
theorem occurrenceOfHead (l t : Chars) (h : l <+: t) : l <:+: t := by
  obtain ⟨u, hu⟩ := h
  exact ⟨[], u, by simpa using hu⟩

/-- Without an occurrence of the start delimiter at the head, the
file-block pattern cannot match there. -/
theorem matchFileBlockAt_eq_none (t : Chars)
    (h : ¬ "--FILE:".toList <+: t) : matchFileBlockAt t = none := by
  rw [matchFileBlockAt]
  cases hd : dropLit "--FILE:".toList t with
  | none => rfl
  | some r => exact absurd ⟨r, dropLit_sound _ _ _ hd⟩ h

/-- Without any occurrence of the start delimiter, the block scan is
empty. -/
theorem scanAll_fileBlock_eq_nil : ∀ (fuel : Nat) (t : Chars),
    ¬ "--FILE:".toList <:+: t → scanAll matchFileBlockAt fuel t = []
  | 0, _, _ => rfl
  | fuel + 1, t, h => by
    rw [scanAll.eq_def]
    simp only [matchFileBlockAt_eq_none t (fun hp => h (occurrenceOfHead _ t hp)),
      Option.elim]
    cases t with
    | nil => rfl
    | cons c cs =>
      refine scanAll_fileBlock_eq_nil fuel cs (fun hi => h ?_)
      obtain ⟨a, b, hab⟩ := hi
      exact ⟨c :: a, b, by simpa using hab⟩

/-- Claim C6: the rewrite parser maps each recognized block to an entry;
one well-formed block for `src/A.csproj` with content `X` yields exactly
the singleton mapping, and a response with no block delimiter yields the
empty mapping, not an error. -/
theorem c6_rewrite_block_parsing (t : Chars)
    (h : ¬ "--FILE:".toList <:+: t) :
    parsePreviewUpdates "--FILE: src/A.csproj --\nX\n--END FILE--".toList
      = [("src/A.csproj".toList, "X".toList)]
    ∧ parsePreviewUpdates t = [] := by
  constructor
  · decide
  · rw [parsePreviewUpdates, extractFileBlocks, scanAll_fileBlock_eq_nil _ t h]
    rfl

/-- Witness for C6 at a delimiter-free response text. -/
theorem c6_rewrite_block_parsing_witness :
    parsePreviewUpdates "--FILE: src/A.csproj --\nX\n--END FILE--".toList
      = [("src/A.csproj".toList, "X".toList)]
    ∧ parsePreviewUpdates "no blocks in this answer".toList = [] :=
  c6_rewrite_block_parsing "no blocks in this answer".toList (by decide)

/-- The keys of a package report. -/
def pkgKeys (d : PkgDict) : List Chars :=
  d.map Prod.fst

/-- The number of entries of the report carrying a given key. -/
def dictCountKey (d : PkgDict) (k : Chars) : Nat :=
  (d.filter (fun p => p.1 = k)).length

/-- Lookup after a `pkgsAdd`: the affected key keeps its first `current`
version and takes the new `latest`; other keys are untouched. -/
theorem pkgsAdd_lookup (d : PkgDict) (name ver : Chars) (latest : Option Chars)
    (k : Chars) :
    dictLookup (pkgsAdd d name ver latest) k =
      if name = k then
        match dictLookup d name with
        | some e => some ⟨e.current, latest⟩
        | none => some ⟨ver, latest⟩
      else dictLookup d k := by
  induction d with
  | nil => simp [pkgsAdd, dictLookup]
  | cons p d ih =>
    obtain ⟨n, e⟩ := p
    by_cases hn : n = name
    · subst hn
      by_cases hk : n = k
      · subst hk; simp [pkgsAdd, dictLookup]
      · simp [pkgsAdd, dictLookup, hk]
    · by_cases hk : n = k
      · subst hk
        simp [pkgsAdd, dictLookup, hn, Ne.symm hn]
      · simp [pkgsAdd, dictLookup, hn, hk, ih]

/-- Keys of a cons cell. -/
theorem pkgKeys_cons (n : Chars) (e : PkgEntry) (d : PkgDict) :
    pkgKeys ((n, e) :: d) = n :: pkgKeys d := rfl

/-- Entry count of a cons cell. -/
theorem dictCountKey_cons (n : Chars) (e : PkgEntry) (d : PkgDict) (k : Chars) :
    dictCountKey ((n, e) :: d) k
      = if n = k then dictCountKey d k + 1 else dictCountKey d k := by
  by_cases h : n = k <;> simp [dictCountKey, h]

/-- Keys after a `pkgsAdd`: unchanged for a present key, appended for a
new one. -/
theorem pkgsAdd_keys (d : PkgDict) (name ver : Chars) (latest : Option Chars) :
    pkgKeys (pkgsAdd d name ver latest)
      = if name ∈ pkgKeys d then pkgKeys d else pkgKeys d ++ [name] := by
  induction d with
  | nil => simp [pkgsAdd, pkgKeys]
  | cons p d ih =>
    obtain ⟨n, e⟩ := p
    by_cases hn : n = name
    · subst hn
      have hstep : pkgsAdd ((n, e) :: d) n ver latest
          = (n, ⟨e.current, latest⟩) :: d := by simp [pkgsAdd]
      rw [hstep, pkgKeys_cons, pkgKeys_cons,
        if_pos (List.mem_cons_self n (pkgKeys d))]
    · have hstep : pkgsAdd ((n, e) :: d) name ver latest
          = (n, e) :: pkgsAdd d name ver latest := by simp [pkgsAdd, hn]
      rw [hstep, pkgKeys_cons, pkgKeys_cons, ih]
      have hmemIff : (name ∈ n :: pkgKeys d) ↔ name ∈ pkgKeys d := by
        simp [List.mem_cons, Ne.symm hn]
      by_cases hm : name ∈ pkgKeys d
      · rw [if_pos hm, if_pos (hmemIff.mpr hm)]
      · rw [if_neg hm, if_neg (fun hc => hm (hmemIff.mp hc))]
        rfl

/-- `pkgsAdd` preserves distinctness of keys. -/
theorem pkgsAdd_nodupKeys (d : PkgDict) (name ver : Chars)
    (latest : Option Chars) (h : (pkgKeys d).Nodup) :
    (pkgKeys (pkgsAdd d name ver latest)).Nodup := by
  rw [pkgsAdd_keys]
  by_cases hm : name ∈ pkgKeys d
  · simpa [hm] using h
  · rw [if_neg hm]
    simp [List.nodup_append, h, hm]

/-- A key absent from the report has zero entries. -/
theorem dictCountKey_eq_zero (d : PkgDict) (k : Chars)
    (h : k ∉ pkgKeys d) : dictCountKey d k = 0 := by
  induction d with
  | nil => rfl
  | cons p d ih =>
    obtain ⟨n, e⟩ := p
    rw [pkgKeys_cons] at h
    have h1 : ¬ n = k := by
      intro hc; subst hc; exact h (List.mem_cons_self _ _)
    have h2 : k ∉ pkgKeys d := fun hc => h (List.mem_cons_of_mem _ hc)
    rw [dictCountKey_cons, if_neg h1]
    exact ih h2

/-- With distinct keys, a key the lookup finds has exactly one entry. -/
theorem dictCountKey_eq_one (d : PkgDict) (k : Chars)
    (hd : (pkgKeys d).Nodup) (hk : (dictLookup d k).isSome) :
    dictCountKey d k = 1 := by
  induction d with
  | nil => simp [dictLookup] at hk
  | cons p d ih =>
    obtain ⟨n, e⟩ := p
    rw [pkgKeys_cons] at hd
    by_cases hp : n = k
    · subst hp
      have hnot : n ∉ pkgKeys d := (List.nodup_cons.mp hd).1
      rw [dictCountKey_cons, if_pos rfl, dictCountKey_eq_zero d n hnot]
    · have hk2 : (dictLookup d k).isSome := by
        simpa [dictLookup, hp] using hk
      rw [dictCountKey_cons, if_neg hp]
      exact ih (List.nodup_cons.mp hd).2 hk2

/-- The scan-order package references of one run: each descriptor's text,
in the order `scan_packages_node` visits them, flattened. -/
def scannedCsprojs (env : Env) (s : UpgradeState) : List Chars :=
  if s.csproj_paths.getD [] = [] then collect_csproj_files env
  else s.csproj_paths.getD []

/-- All `(name, version)` pairs the scan extracts, in scan order. -/
def scannedRefs (env : Env) (s : UpgradeState) : List (Chars × Chars) :=
  (scannedCsprojs env s).flatMap (fun p => findPackageReferences (read_text env p))

/-- A nested per-file fold over extracted references equals one fold over
the flattened reference list. -/
theorem foldl_foldl_eq_bind (g : PkgDict → (Chars × Chars) → PkgDict)
    (f : Chars → List (Chars × Chars)) :
    ∀ (l : List Chars) (d0 : PkgDict),
    l.foldl (fun d p => (f p).foldl g d) d0 = (l.flatMap f).foldl g d0
  | [], _ => rfl
  | p :: l, d0 => by
    rw [List.foldl_cons, List.flatMap_cons, List.foldl_append]
    exact foldl_foldl_eq_bind g f l (List.foldl g d0 (f p))

/-- Folding `pkgsAdd` over a reference list keeps keys distinct. -/
theorem scanFold_nodupKeys (lookupL : Chars → Option Chars) :
    ∀ (ps : List (Chars × Chars)) (d0 : PkgDict), (pkgKeys d0).Nodup →
    (pkgKeys (ps.foldl
      (fun d nv => pkgsAdd d nv.1 nv.2 (lookupL nv.1)) d0)).Nodup
  | [], _, h => h
  | _ :: ps, d0, h =>
    scanFold_nodupKeys lookupL ps _ (pkgsAdd_nodupKeys d0 _ _ _ h)

/-- Lookup after folding `pkgsAdd` over a reference list: a key already
present keeps its `current` and gets the new `latest` exactly when the
list mentions it; a fresh key takes the version of its first occurrence
and the looked-up `latest`. -/
theorem scanFold_lookup (lookupL : Chars → Option Chars) :
    ∀ (ps : List (Chars × Chars)) (d0 : PkgDict) (k : Chars),
    dictLookup (ps.foldl
        (fun d nv => pkgsAdd d nv.1 nv.2 (lookupL nv.1)) d0) k =
      match dictLookup d0 k with
      | some e =>
        some ⟨e.current, if k ∈ ps.map Prod.fst then lookupL k else e.latest⟩
      | none =>
        match ps.find? (fun nv => nv.1 = k) with
        | some nv => some ⟨nv.2, lookupL k⟩
        | none => none
  | [], d0, k => by
    cases h : dictLookup d0 k with
    | none => simp [h]
    | some e => cases e; simp [h]
  | p :: ps, d0, k => by
    rw [List.foldl_cons,
      scanFold_lookup lookupL ps (pkgsAdd d0 p.1 p.2 (lookupL p.1)) k,
      pkgsAdd_lookup]
    by_cases hk : p.1 = k
    · subst hk
      cases h : dictLookup d0 p.1 with
      | some e => simp [h, List.find?_cons]
      | none => simp [h, List.find?_cons]
    · cases h : dictLookup d0 k with
      | some e =>
        have hne : ¬ k = p.1 := fun hc => hk hc.symm
        simp only [hk, h, if_false, ite_false, List.map_cons]
        by_cases hm : k ∈ List.map Prod.fst ps
        · rw [if_pos hm, if_pos (List.mem_cons_of_mem _ hm)]
        · rw [if_neg hm, if_neg (fun hc => (List.mem_cons.mp hc).elim hne hm)]
      | none => simp [hk, h, List.find?_cons]

/-- Claim C10: when a package name occurs in several `PackageReference`
declarations, the report holds exactly one entry for it, whose `current`
is the version of the first occurrence in scan order and whose `latest`
is the (deterministic) result of the version lookup for that name — the
value written by the last lookup performed. -/
theorem c10_duplicate_refs_single_entry (env : Env) (s s2 : UpgradeState)
    (name ver : Chars)
    (hrun : scan_packages_node env s = .ok s2)
    (hfirst : (scannedRefs env s).find? (fun nv => nv.1 = name)
      = some (name, ver)) :
    dictCountKey (s2.package_report.getD []) name = 1
    ∧ dictLookup (s2.package_report.getD []) name
        = some ⟨ver, lookupLatestInScan env s name⟩ := by
  cases hroot : s.uploaded_file_path with
  | none =>
    rw [scan_packages_node, hroot] at hrun
    exact absurd hrun (by simp)
  | some r =>
    simp only [scan_packages_node, hroot] at hrun
    obtain rfl := Except.ok.inj hrun
    dsimp only
    rw [Option.getD_some]
    rw [foldl_foldl_eq_bind
      (fun d2 nv => pkgsAdd d2 nv.1 nv.2 (lookupLatestInScan env s nv.1))
      (fun p => findPackageReferences (read_text env p))]
    have hlook :
        dictLookup
          (((if s.csproj_paths.getD [] = [] then collect_csproj_files env
             else s.csproj_paths.getD []).flatMap
              (fun p => findPackageReferences (read_text env p))).foldl
            (fun d nv => pkgsAdd d nv.1 nv.2 (lookupLatestInScan env s nv.1)) [])
          name
        = some ⟨ver, lookupLatestInScan env s name⟩ := by
      rw [scanFold_lookup (fun n => lookupLatestInScan env s n)]
      have hfirst2 :
          (((if s.csproj_paths.getD [] = [] then collect_csproj_files env
             else s.csproj_paths.getD []).flatMap
              (fun p => findPackageReferences (read_text env p))).find?
            (fun nv => nv.1 = name)) = some (name, ver) := hfirst
      simp [dictLookup, hfirst2]
    refine ⟨?_, hlook⟩
    exact dictCountKey_eq_one _ _
      (scanFold_nodupKeys (fun n => lookupLatestInScan env s n) _ []
        List.nodup_nil)
      (by rw [hlook]; rfl)

/-- A tree whose single descriptor declares the same package twice with
different pinned versions. -/
def envDup : Env :=
  { envT with tree := [("A.csproj".toList,
      "<PackageReference Include=\"A\" Version=\"1.0\" />\n<PackageReference Include=\"A\" Version=\"2.0\" />".toList)] }

/-- The report the scan produces on `envDup`: one entry for the duplicated
name, current version from the first occurrence, latest from the lookup. -/
def dupReport : PkgDict :=
  [("A".toList, PkgEntry.mk "1.0".toList (some "13.0.1".toList))]

/-- The state the scan produces on `envDup`. -/
def s2Dup : UpgradeState :=
  { sInit with package_report := some dupReport }

/-- Witness for C10 on the duplicated-reference tree. -/
theorem c10_duplicate_refs_single_entry_witness :
    dictCountKey (s2Dup.package_report.getD []) "A".toList = 1
    ∧ dictLookup (s2Dup.package_report.getD []) "A".toList
        = some ⟨"1.0".toList, lookupLatestInScan envDup sInit "A".toList⟩ :=
  c10_duplicate_refs_single_entry envDup sInit s2Dup "A".toList "1.0".toList
    (by decide) (by decide)

/-- A necessary condition for a key to be a relative path under
`project_root`: it does not start with the filesystem root separator. -/
def isRelativePathKey (k : Chars) : Bool :=
  k.head? ≠ some '/'

/-- An environment whose rewrite oracle labels its block with an absolute
path; nothing in the pipeline validates block labels. -/
def envC3 : Env where
  tree := []
  jwtFor := fun _ => []
  privFeedResp := fun _ _ _ => .exn
  pubResp := fun _ => .exn
  analyzeAI := fun _ => .ok "report".toList
  rewriteAI := fun _ => .ok "--FILE: /etc/passwd --\nX\n--END FILE--".toList

/-- Counterexample for C3: a complete pipeline run whose `csproj_updates`
key is `/etc/passwd`, which is not a relative path under `project_root`. -/
theorem c3_counterexample_absolute_key :
    ((runSequential envC3 sInit).toOption.bind
        (fun st => st.csproj_updates)).map (fun d => d.map Prod.fst)
      = some ["/etc/passwd".toList]
    ∧ isRelativePathKey "/etc/passwd".toList = false :=
  ⟨by decide, by decide⟩

/-- Keys added by `pkgsAdd` come from the old keys plus the new name. -/
theorem pkgsAdd_keys_subset (d : PkgDict) (n v : Chars) (l : Option Chars) :
    pkgKeys (pkgsAdd d n v l) ⊆ n :: pkgKeys d := by
  rw [pkgsAdd_keys]
  by_cases hm : n ∈ pkgKeys d
  · rw [if_pos hm]
    exact List.subset_cons_self n _
  · rw [if_neg hm]
    intro x hx
    rcases List.mem_append.mp hx with h | h
    · exact List.mem_cons_of_mem _ h
    · simp only [List.mem_singleton] at h
      subst h
      exact List.mem_cons_self _ _

/-- Keys of the scan fold all come from the scanned reference names. -/
theorem scanFold_keys_subset (lookupL : Chars → Option Chars) :
    ∀ (ps : List (Chars × Chars)) (d0 : PkgDict),
    pkgKeys (ps.foldl (fun d nv => pkgsAdd d nv.1 nv.2 (lookupL nv.1)) d0)
      ⊆ ps.map Prod.fst ++ pkgKeys d0
  | [], d0 => by simp
  | p :: ps, d0 => by
    rw [List.foldl_cons]
    intro x hx
    have hx2 := scanFold_keys_subset lookupL ps
      (pkgsAdd d0 p.1 p.2 (lookupL p.1)) hx
    rcases List.mem_append.mp hx2 with h | h
    · exact List.mem_append.mpr (Or.inl (List.mem_cons_of_mem _ h))
    · rcases List.mem_cons.mp (pkgsAdd_keys_subset d0 p.1 p.2 (lookupL p.1) h)
        with h2 | h2
      · subst h2
        exact List.mem_append.mpr (Or.inl (by simp))
      · exact List.mem_append.mpr (Or.inr h2)

/-- All package names the scan can ever report for an environment. -/
def allScannedNames (env : Env) : List Chars :=
  ((collect_csproj_files env).flatMap
    (fun p => findPackageReferences (read_text env p))).map Prod.fst

/-- Inversion of a successful `Except` bind. -/
theorem except_bind_ok_inv {x : Except PyErr UpgradeState}
    {f : UpgradeState → Except PyErr UpgradeState} {b : UpgradeState}
    (h : (x >>= f) = .ok b) : ∃ a, x = .ok a ∧ f a = .ok b := by
  cases x with
  | error e => exact absurd h (by simp [Bind.bind, Except.bind])
  | ok a => exact ⟨a, rfl, by simpa [Bind.bind, Except.bind] using h⟩

/-- Amended C3: after every complete run, `csproj_updates` is exactly the
parse of the stored rewrite preview (its keys are the stripped block
labels of the AI response, with no containment check against
`project_root`), and every key of `package_report` is a package name
extracted from a scanned descriptor (not a file path at all). -/
theorem c3_amended_key_provenance (env : Env) (s0 st : UpgradeState)
    (h : runSequential env s0 = .ok st) :
    st.csproj_updates = st.upgrade_preview.map parsePreviewUpdates
    ∧ (st.package_report.getD []).map Prod.fst ⊆ allScannedNames env := by
  rw [runSequential] at h
  obtain ⟨s6, h6, hfin⟩ := except_bind_ok_inv h
  obtain ⟨s5, h5, hupg⟩ := except_bind_ok_inv h6
  obtain ⟨s4, h4, hana⟩ := except_bind_ok_inv h5
  obtain ⟨s3, h3, hscan⟩ := except_bind_ok_inv h4
  obtain ⟨s2, h2, hjwt⟩ := except_bind_ok_inv h3
  obtain ⟨s1, hup, hdet⟩ := except_bind_ok_inv h2
  cases hroot : s0.uploaded_file_path with
  | none =>
    rw [upload_node, hroot] at hup
    exact absurd hup (by simp)
  | some r =>
    rw [upload_node, hroot] at hup
    obtain rfl := Except.ok.inj hup
    simp only [detect_feeds_node, hroot] at hdet
    obtain rfl := Except.ok.inj hdet
    simp only [generate_jwt_node] at hjwt
    obtain rfl := Except.ok.inj hjwt
    simp only [scan_packages_node, hroot] at hscan
    obtain rfl := Except.ok.inj hscan
    simp only [analyze_ai_node, hroot] at hana
    split at hana
    · exact absurd hana (by simp)
    · obtain rfl := Except.ok.inj hana
      simp only [upgrade_ai_node, hroot] at hupg
      split at hupg
      · exact absurd hupg (by simp)
      · obtain rfl := Except.ok.inj hupg
        rw [final_node] at hfin
        obtain rfl := Except.ok.inj hfin
        refine ⟨rfl, ?_⟩
        dsimp only
        rw [Option.getD_some]
        simp only [Option.getD_some, ite_self]
        rw [foldl_foldl_eq_bind]
        intro x hx
        have hx2 := scanFold_keys_subset _ _ _ hx
        simpa [allScannedNames, pkgKeys] using hx2

/-- The final state of a complete run on `envC3`. -/
def c3FinalState : UpgradeState :=
  { sInit with
      csproj_paths := some [],
      private_feeds := some [],
      feed_tokens := some [],
      package_report := some [],
      analysis_report := some "report".toList,
      upgrade_preview := some "--FILE: /etc/passwd --\nX\n--END FILE--".toList,
      csproj_updates := some [("/etc/passwd".toList, "X".toList)] }

/-- Witness for the amended C3 at a complete concrete run. -/
theorem c3_amended_key_provenance_witness :
    c3FinalState.csproj_updates
      = c3FinalState.upgrade_preview.map parsePreviewUpdates
    ∧ (c3FinalState.package_report.getD []).map Prod.fst
        ⊆ allScannedNames envC3 :=
  c3_amended_key_provenance envC3 sInit c3FinalState (by decide)
